import Mathlib

/-!
Verification of the PEPit symbolic-algebra / SDP-assembly engine against its
natural-language specification.

The repository's source provides `PEPit/constraint.py` and the
`primitive_steps` package initializer directly; the other core modules
(`point.py`, `expression.py`, `function.py`, `pep.py`) are exercised only
through their tests and callers, so the definitions below that concern them
are modelled from the specification and marked as such in their doc comments.
-/

namespace PEPit

/-- Modelled from the spec: an `Expression` is a symbolic scalar, a triple of
a rational constant, a linear part mapping function-value-atom identities to
coefficients, and a quadratic part mapping unordered pairs of leaf-Point
identities to coefficients (`expression.py` is not among the provided source
files; only its shape from §3 of the spec is needed here). -/
structure Expression where
  constant : ℚ
  linear : List (Nat × ℚ)
  quadratic : List ((Nat × Nat) × ℚ)
deriving DecidableEq, Repr

/-- Evaluation of an `Expression` against a concrete Gram matrix `G` and
function-value vector `F`: a pure affine dot-product (spec §4.2). -/
def Expression.eval (e : Expression) (G : Nat → Nat → ℚ) (F : Nat → ℚ) : ℚ :=
  e.constant
    + (e.linear.map (fun p => p.2 * F p.1)).sum
    + (e.quadratic.map (fun p => p.2 * G p.1.1 p.1.2)).sum

/-- A `Constraint` as stored by `PEPit/constraint.py`: the compared
expression, the `equality_or_inequality` tag, the creation-counter value
assigned at construction, and the dual variable value (`None` until the
problem is solved). -/
structure Constraint where
  expression : Expression
  equality_or_inequality : String
  counter : Nat
  dual_variable_value : Option ℚ
deriving DecidableEq, Repr

/-- `Constraint.__init__` (constraint.py lines 54–67), with the process-wide
class counter made an explicit state argument.  The counter is read and
bumped first (lines 55–56); then the `assert equality_or_inequality in
set of equality and inequality` (line 62) either aborts construction
(`none`, the AssertionError) or stores the tag; `dual_variable_value` is
initialized to `None` (line 67).  Returns the constructed object and the
updated class counter. -/
def Constraint.mk? (cnt : Nat) (expression : Expression)
    (equality_or_inequality : String) : Option (Constraint × Nat) :=
  if equality_or_inequality = "equality" ∨ equality_or_inequality = "inequality" then
    some ({ expression := expression
            equality_or_inequality := equality_or_inequality
            counter := cnt
            dual_variable_value := none }, cnt + 1)
  else
    none

/-- A concrete expression used for witnesses. -/
def exprZero : Expression := { constant := 0, linear := [], quadratic := [] }

/-- C1: construction of a `Constraint` succeeds exactly when the
`equality_or_inequality` argument is one of the two canonical strings, and
every successfully constructed `Constraint` carries a tag in that set. -/
theorem constraint_tag_canonical (cnt : Nat) (e : Expression) (tag : String) :
    ((Constraint.mk? cnt e tag).isSome ↔ tag = "equality" ∨ tag = "inequality") ∧
    (∀ c cnt', Constraint.mk? cnt e tag = some (c, cnt') →
      c.equality_or_inequality = "equality" ∨ c.equality_or_inequality = "inequality") := by
  constructor
  · unfold Constraint.mk?
    by_cases h : tag = "equality" ∨ tag = "inequality"
    · simp [h]
    · simp [h]
  · intro c cnt' hc
    unfold Constraint.mk? at hc
    by_cases h : tag = "equality" ∨ tag = "inequality"
    · simp [h] at hc
      rcases h with h | h
      · left; rw [← hc.1, h]
      · right; rw [← hc.1, h]
    · simp [h] at hc

/-- Witness for C1: at counter 0, the zero expression and tag `"equality"`,
construction succeeds and produces the canonical tag; with tag `"typo"` it
fails. -/
theorem constraint_tag_canonical_witness :
    ((Constraint.mk? 0 exprZero "equality").isSome) ∧
    ((Constraint.mk? 0 exprZero "typo").isSome = false) ∧
    (∀ c cnt', Constraint.mk? 0 exprZero "equality" = some (c, cnt') →
      c.equality_or_inequality = "equality" ∨ c.equality_or_inequality = "inequality") := by
  refine ⟨?_, ?_, (constraint_tag_canonical 0 exprZero "equality").2⟩
  · rw [(constraint_tag_canonical 0 exprZero "equality").1]
    left; rfl
  · have h := (constraint_tag_canonical 0 exprZero "typo").1
    by_cases hs : (Constraint.mk? 0 exprZero "typo").isSome
    · exfalso
      rcases h.mp hs with hq | hq <;> simp at hq
    · simpa using hs

/-- Modelled from the spec: step 7 of `solve()` in `pep.py` (not among the
provided source files) — on a successful solve the external solver returns
one dual multiplier per supplied constraint and the orchestrator populates
each Constraint's `dual_variable_value` with it. -/
def solveDuals (cs : List Constraint) (duals : List ℚ) : List Constraint :=
  List.zipWith (fun c d => { c with dual_variable_value := some d }) cs duals

/-- C2: a `Constraint` has `dual_variable_value = none` immediately after
construction, and after a successful solve supplying one dual per
constraint, every constraint carries a concrete rational dual value. -/
theorem dual_variable_before_after_solve (cnt : Nat) (e : Expression) (tag : String) :
    (∀ c cnt', Constraint.mk? cnt e tag = some (c, cnt') →
      c.dual_variable_value = none) ∧
    (∀ (cs : List Constraint) (duals : List ℚ), cs.length = duals.length →
      ∀ c ∈ solveDuals cs duals, ∃ d : ℚ, c.dual_variable_value = some d) := by
  constructor
  · intro c cnt' hc
    unfold Constraint.mk? at hc
    by_cases h : tag = "equality" ∨ tag = "inequality"
    · simp [h] at hc
      exact hc.1 ▸ rfl
    · simp [h] at hc
  · intro cs duals _ c hc
    unfold solveDuals at hc
    rcases List.mem_iff_get.mp hc with ⟨i, hi⟩
    refine ⟨duals.get (Fin.cast (by simp [List.length_zipWith]; omega) i), ?_⟩
    rw [← hi]
    simp [List.get_zipWith]

/-- Witness for C2: the constraint built at counter 0 with the zero
expression has no dual value; after a solve delivering dual `1/2` it holds
`some (1/2)`. -/
theorem dual_variable_before_after_solve_witness :
    (∀ c cnt', Constraint.mk? 0 exprZero "equality" = some (c, cnt') →
      c.dual_variable_value = none) ∧
    (∀ c ∈ solveDuals
        [{ expression := exprZero, equality_or_inequality := "equality",
           counter := 0, dual_variable_value := none }] [(1 : ℚ)/2],
      ∃ d : ℚ, c.dual_variable_value = some d) :=
  ⟨(dual_variable_before_after_solve 0 exprZero "equality").1,
   (dual_variable_before_after_solve 0 exprZero "equality").2 _ _ rfl⟩

/-- Sequential construction of constraints from a list of
(expression, tag) requests, threading the class counter exactly as
`Constraint.__init__` does; any invalid tag aborts the whole build (the
AssertionError propagates). -/
def buildConstraints (cnt : Nat) :
    List (Expression × String) → Option (List Constraint × Nat)
  | [] => some ([], cnt)
  | (e, t) :: rest =>
    (Constraint.mk? cnt e t).bind fun p =>
      (buildConstraints p.2 rest).map fun q => (p.1 :: q.1, q.2)

theorem Constraint.mk?_eq_some (cnt : Nat) (e : Expression) (tag : String)
    (c : Constraint) (cnt' : Nat) (h : Constraint.mk? cnt e tag = some (c, cnt')) :
    c = { expression := e, equality_or_inequality := tag, counter := cnt,
          dual_variable_value := none } ∧ cnt' = cnt + 1 := by
  unfold Constraint.mk? at h
  by_cases ht : tag = "equality" ∨ tag = "inequality"
  · simp [ht] at h
    exact ⟨h.1.symm, h.2.symm⟩
  · simp [ht] at h

/-- Modelled from the spec: the constraint-building state of a `PEP` problem
(`pep.py` is not among the provided source files).  It records the initial
conditions in `set_initial_condition` call order and, for each declared
Function in declaration order, the list of its interpolation-constraint
requests. -/
structure Problem where
  list_of_conditions : List (Expression × String)
  functions : List (List (Expression × String))

/-- Modelled from the spec: step 4 of `solve()` — the assembled constraint
set is `list_of_conditions` followed by every declared Function's class
constraints in declaration order, each receiving a Constraint creation
index matching this order, starting from a reset counter. -/
def Problem.assemble (p : Problem) : Option (List Constraint × Nat) :=
  buildConstraints 0 (p.list_of_conditions ++ p.functions.flatten)

theorem buildConstraints_counter (specs : List (Expression × String)) :
    ∀ cnt cs cnt', buildConstraints cnt specs = some (cs, cnt') →
      cnt' = cnt + cs.length ∧
      ∀ i (hi : i < cs.length), (cs.get ⟨i, hi⟩).counter = cnt + i := by
  induction specs with
  | nil =>
    intro cnt cs cnt' h
    simp only [buildConstraints, Option.some.injEq, Prod.mk.injEq] at h
    obtain ⟨rfl, rfl⟩ := h
    exact ⟨by simp, fun i hi => by simp at hi⟩
  | cons hd tl ih =>
    intro cnt cs cnt' h
    obtain ⟨e, t⟩ := hd
    simp only [buildConstraints, Option.bind_eq_some, Option.map_eq_some'] at h
    obtain ⟨⟨c, cnt₁⟩, hmk, ⟨cs₁, cnt₂⟩, hbuild, heq⟩ := h
    injection heq with h1 h2
    subst h1; subst h2
    obtain ⟨hc, rfl⟩ := Constraint.mk?_eq_some cnt e t c cnt₁ hmk
    obtain ⟨hlen, hidx⟩ := ih (cnt + 1) cs₁ cnt₂ hbuild
    refine ⟨by simp [hlen]; omega, ?_⟩
    intro i hi
    match i with
    | 0 => simp [hc]
    | Nat.succ j =>
      have hj : j < cs₁.length := by simpa using hi
      have hcount := hidx j hj
      simp only [List.get_eq_getElem] at hcount ⊢
      simp only [List.getElem_cons_succ]
      omega

theorem buildConstraints_append (l₁ l₂ : List (Expression × String)) :
    ∀ cnt cs cnt', buildConstraints cnt (l₁ ++ l₂) = some (cs, cnt') →
      ∃ cs₁ cnt₁ cs₂, buildConstraints cnt l₁ = some (cs₁, cnt₁) ∧
        buildConstraints cnt₁ l₂ = some (cs₂, cnt') ∧ cs = cs₁ ++ cs₂ := by
  induction l₁ with
  | nil =>
    intro cnt cs cnt' h
    exact ⟨[], cnt, cs, rfl, h, rfl⟩
  | cons hd tl ih =>
    intro cnt cs cnt' h
    obtain ⟨e, t⟩ := hd
    rw [List.cons_append] at h
    simp only [buildConstraints, Option.bind_eq_some, Option.map_eq_some'] at h
    obtain ⟨⟨c, cnt₁⟩, hmk, ⟨csr, cnt₂⟩, hbuild, heq⟩ := h
    injection heq with h1 h2
    subst h1; subst h2
    obtain ⟨csa, cnta, csb, ha, hb, rfl⟩ := ih cnt₁ csr cnt₂ hbuild
    refine ⟨c :: csa, cnta, csb, ?_, hb, rfl⟩
    simp only [buildConstraints, Option.bind_eq_some, Option.map_eq_some']
    exact ⟨(c, cnt₁), hmk, (csa, cnta), ha, rfl⟩

/-- C3: in a successfully assembled problem, the k-th constructed Constraint
(counting from 0 after a counter reset) receives counter value k — so
indices are strictly increasing in creation order — and the assembled list
is exactly the initial conditions (in `set_initial_condition` call order)
followed by the declared Functions' interpolation constraints in
declaration order. -/
theorem constraint_counter_ordering (p : Problem) (cs : List Constraint) (cnt : Nat)
    (h : p.assemble = some (cs, cnt)) :
    (∀ i (hi : i < cs.length), (cs.get ⟨i, hi⟩).counter = i) ∧
    (∀ i j (hi : i < cs.length) (hj : j < cs.length), i < j →
      (cs.get ⟨i, hi⟩).counter < (cs.get ⟨j, hj⟩).counter) ∧
    (∃ condCs cnt₁ funCs,
      buildConstraints 0 p.list_of_conditions = some (condCs, cnt₁) ∧
      buildConstraints cnt₁ p.functions.flatten = some (funCs, cnt) ∧
      cs = condCs ++ funCs) := by
  obtain ⟨_, hidx⟩ := buildConstraints_counter _ 0 cs cnt h
  refine ⟨fun i hi => by simpa using hidx i hi, ?_, ?_⟩
  · intro i j hi hj hij
    have h1 := hidx i hi
    have h2 := hidx j hj
    omega
  · exact buildConstraints_append _ _ 0 cs cnt h

/-- A concrete two-condition, one-function problem for the C3 witness. -/
def problemW : Problem :=
  { list_of_conditions := [(exprZero, "inequality"), (exprZero, "equality")]
    functions := [[(exprZero, "inequality")]] }

/-- Witness for C3: assembling the concrete problem succeeds and its three
constraints receive counters 0, 1, 2, with conditions first. -/
theorem constraint_counter_ordering_witness :
    ∃ cs cnt, problemW.assemble = some (cs, cnt) ∧
      (∀ i (hi : i < cs.length), (cs.get ⟨i, hi⟩).counter = i) ∧
      (∃ condCs cnt₁ funCs,
        buildConstraints 0 problemW.list_of_conditions = some (condCs, cnt₁) ∧
        buildConstraints cnt₁ problemW.functions.flatten = some (funCs, cnt) ∧
        cs = condCs ++ funCs) := by
  have h : problemW.assemble =
      some ([{ expression := exprZero, equality_or_inequality := "inequality",
               counter := 0, dual_variable_value := none },
             { expression := exprZero, equality_or_inequality := "equality",
               counter := 1, dual_variable_value := none },
             { expression := exprZero, equality_or_inequality := "inequality",
               counter := 2, dual_variable_value := none }], 3) := by
    decide
  obtain ⟨h1, _, h3⟩ := constraint_counter_ordering problemW _ 3 h
  exact ⟨_, 3, h, h1, h3⟩

/-- Modelled from the spec: a `Point` (`point.py` is not among the provided
source files) is either a leaf basis vector or a flat composite over leaves
(spec §3, §4.1).  Its fields follow the spec's data model together with the
repository's own test `test_constraints.py::test_counter`, which fixes the
`counter` attribute: leaves carry the creation-counter value
(`xs.counter == 0`, `x0.counter == 1`) while a composite built by
arithmetic has `counter is None` (`x1.counter is None`). -/
structure Point where
  is_leaf : Bool
  counter : Option Nat
  decomposition : List (Nat × ℚ)
deriving DecidableEq, Repr

/-- Modelled from the spec: leaf creation — a fresh basis vector whose
identity is the current value of the monotonic Point counter; returns the
point and the bumped counter. -/
def Point.leaf (cnt : Nat) : Point × Nat :=
  ({ is_leaf := true, counter := some cnt, decomposition := [(cnt, 1)] }, cnt + 1)

/-- Sum of the coefficients attached to leaf identity `k` in a raw
decomposition list. -/
def coeffOf (d : List (Nat × ℚ)) (k : Nat) : ℚ :=
  ((d.filter fun p => p.1 = k).map Prod.snd).sum

/-- Modelled from the spec: `combination` (spec §4.1) — flattens nested
composites by substituting each operand's own leaf map, scaled by its
coefficient, merging by summation over shared leaves.  The result is a
composite: `is_leaf` is false and, per the repository test, its `counter`
is unset (`None`). -/
def Point.combination (l : List (Point × ℚ)) : Point :=
  { is_leaf := false
    counter := none
    decomposition :=
      let raw := (l.map fun p => p.1.decomposition.map fun q => (q.1, p.2 * q.2)).flatten
      ((raw.map Prod.fst).dedup).map fun k => (k, coeffOf raw k) }

/-- Point subtraction, built atop `combination` as in spec §4.1. -/
def Point.sub (a b : Point) : Point := Point.combination [(a, 1), (b, -1)]

/-- Scalar multiple of a Point, built atop `combination`. -/
def Point.smul (γ : ℚ) (a : Point) : Point := Point.combination [(a, γ)]

/-- The test scenario of `test_constraints.py` after a counter reset:
`xs` is the stationary point (leaf 0). -/
def xsPt : Point := (Point.leaf 0).1

/-- `x0`, the initial point: the next leaf (counter 1). -/
def x0Pt : Point := (Point.leaf (Point.leaf 0).2).1

/-- The gradient returned by the oracle at `x0`: a further leaf. -/
def gradPt : Point := (Point.leaf (Point.leaf (Point.leaf 0).2).2).1

/-- `x1 = x0 - gamma * gradient` with `gamma = 1`, a composite Point built
by arithmetic, exactly as in the test setup. -/
def x1Pt : Point := Point.sub x0Pt (Point.smul 1 gradPt)

/-- Counterexample to C4: the composite `x1 = x0 - gamma * gradient`,
obtained through the public arithmetic interface, does NOT carry an integer
creation index — its `counter` is `None`, exactly as the repository's own
test `test_counter` asserts (`self.assertIs(self.x1.counter, None)`). -/
theorem point_composite_counter_is_none :
    x1Pt.counter = none ∧ ¬ x1Pt.counter.isSome ∧
    xsPt.counter = some 0 ∧ x0Pt.counter = some 1 := by
  refine ⟨rfl, ?_, rfl, rfl⟩
  intro h
  simp [x1Pt, Point.sub, Point.combination] at h

/-- C4 (amended): every **leaf** Point carries a monotonically increasing
creation index, unique within a problem's lifetime (distinct counter states
give distinct identities), while composite Points built by arithmetic have
their `counter` unset (`None`) and carry only a flat leaf decomposition. -/
theorem point_counter_leaf_monotone_composite_none (cnt : Nat) (l : List (Point × ℚ)) :
    (Point.leaf cnt).1.counter = some cnt ∧
    (Point.leaf cnt).2 = cnt + 1 ∧
    (∀ cnt', cnt ≠ cnt' → (Point.leaf cnt).1.counter ≠ (Point.leaf cnt').1.counter) ∧
    (Point.combination l).counter = none ∧ (Point.combination l).is_leaf = false := by
  refine ⟨rfl, rfl, ?_, rfl, rfl⟩
  intro cnt' hne h
  simp [Point.leaf] at h
  exact hne h

/-- Witness for the amended C4: at counter state 1 with the concrete
composite `x1` of the test scenario. -/
theorem point_counter_leaf_monotone_composite_none_witness :
    (Point.leaf 1).1.counter = some 1 ∧
    (Point.leaf 1).1.counter ≠ (Point.leaf 2).1.counter ∧
    (Point.combination [(x0Pt, 1), (gradPt, -1)]).counter = none :=
  ⟨(point_counter_leaf_monotone_composite_none 1 [(x0Pt, 1), (gradPt, -1)]).1,
   (point_counter_leaf_monotone_composite_none 1 [(x0Pt, 1), (gradPt, -1)]).2.2.1 2
     (by decide),
   (point_counter_leaf_monotone_composite_none 1 [(x0Pt, 1), (gradPt, -1)]).2.2.2.1⟩

/-- One recorded oracle call of a Function: the queried point's identity,
the identity of the returned gradient Point, and the identity of the
returned function-value atom (identities stand for object references:
two calls return reference-equal objects iff the identities coincide). -/
structure OracleCall where
  point : Nat
  gradient : Nat
  value : Nat
deriving DecidableEq, Repr

/-- Modelled from the spec: the mutable state of one differentiable
Function (`function.py` is not among the provided source files) — the
ordered list of recorded oracle calls plus the allocation counters for
fresh leaf Points and fresh function-value atoms. -/
structure FunState where
  list_of_points : List OracleCall
  next_point : Nat
  next_expr : Nat
deriving DecidableEq, Repr

/-- Modelled from the spec: `oracle(point)` for a differentiable class
(spec §4.3) — if the same Point object was queried before, return the
previously recorded gradient Point and value atom without allocating
anything; otherwise allocate a fresh gradient leaf and a fresh value atom
and record the call. -/
def FunState.oracle (st : FunState) (p : Nat) : Nat × Nat × FunState :=
  match st.list_of_points.find? (fun c => c.point = p) with
  | some c => (c.gradient, c.value, st)
  | none =>
    (st.next_point, st.next_expr,
     { list_of_points := st.list_of_points ++ [⟨p, st.next_point, st.next_expr⟩]
       next_point := st.next_point + 1
       next_expr := st.next_expr + 1 })

/-- C9: repeated `oracle()` calls on a differentiable Function at the same
Point object are idempotent over identity — the second call returns
exactly the gradient identity and value identity recorded by the first
call, and allocates nothing (the Function state is unchanged). -/
theorem oracle_idempotent_over_identity (st : FunState) (p : Nat) :
    (st.oracle p).2.2.oracle p = st.oracle p := by
  rcases hf : st.list_of_points.find? (fun c => c.point = p) with _ | c
  · have hfind :
        (st.list_of_points ++
          [OracleCall.mk p st.next_point st.next_expr]).find? (fun c => c.point = p) =
        some (OracleCall.mk p st.next_point st.next_expr) := by
      rw [List.find?_append, hf]
      simp [List.find?]
    simp [FunState.oracle, hf, hfind]
  · simp [FunState.oracle, hf]

/-- A pair of a candidate Gram matrix and a candidate function-value
vector — the decision variables `(G, F)` of the lowered SDP. -/
def GramAssignment : Type := (Nat → Nat → ℚ) × (Nat → ℚ)

/-- The minimum of the recorded performance-metric Expressions evaluated at
an assignment `(G, F)`, with `metric` the first recorded metric (the list
of metrics is nonempty as soon as one was set). -/
def minPerformance (metric : Expression) (metrics : List Expression)
    (v : GramAssignment) : ℚ :=
  (metrics.map fun e => e.eval v.1 v.2).foldr min (metric.eval v.1 v.2)

/-- Modelled from the spec: step 5 of `solve()` (`pep.py` is not among the
provided source files) — a value `tau` is feasible for the assembled
program iff some assignment `(G, F)` in the feasible set `S` (all lowered
Constraints satisfied and `G` PSD) has every lowered performance-metric
expression `≥ tau`. -/
def tauFeasible (metric : Expression) (metrics : List Expression)
    (S : GramAssignment → Prop) (tau : ℚ) : Prop :=
  ∃ v, S v ∧ ∀ e ∈ metric :: metrics, tau ≤ e.eval v.1 v.2

theorem le_minPerformance_iff (metric : Expression) (metrics : List Expression)
    (v : GramAssignment) (t : ℚ) :
    (∀ e ∈ metric :: metrics, t ≤ e.eval v.1 v.2) ↔
      t ≤ minPerformance metric metrics v := by
  induction metrics with
  | nil => simp [minPerformance]
  | cons m ms ih =>
    constructor
    · intro h
      have h1 : ∀ e ∈ metric :: ms, t ≤ e.eval v.1 v.2 := by
        intro e he
        rcases List.mem_cons.mp he with rfl | he'
        · exact h _ (List.mem_cons_self _ _)
        · exact h e (List.mem_cons.mpr (Or.inr (List.mem_cons.mpr (Or.inr he'))))
      have h2 : t ≤ m.eval v.1 v.2 :=
        h m (List.mem_cons.mpr (Or.inr (List.mem_cons_self _ _)))
      have h3 := ih.mp h1
      simp only [minPerformance, List.map_cons, List.foldr_cons]
      exact le_min h2 h3
    · intro h e he
      simp only [minPerformance, List.map_cons, List.foldr_cons] at h
      have h2 : t ≤ m.eval v.1 v.2 := le_trans h (min_le_left _ _)
      have h3 : t ≤ minPerformance metric ms v := le_trans h (min_le_right _ _)
      rcases List.mem_cons.mp he with rfl | he'
      · exact (ih.mpr h3) e (List.mem_cons_self _ _)
      · rcases List.mem_cons.mp he' with rfl | he''
        · exact h2
        · exact (ih.mpr h3) e (List.mem_cons.mpr (Or.inr he''))

/-- C5: the solved objective is the minimum over all recorded performance
metrics — `tau` is the greatest feasible value of the program "maximize tau
subject to every lowered performance metric ≥ tau over the feasible set"
iff it is the greatest attained value of the pointwise minimum of the
metrics over that feasible set; so with several metrics the result is the
worst case of their minimum, not of any single metric. -/
theorem solved_objective_is_min_of_metrics (metric : Expression)
    (metrics : List Expression) (S : GramAssignment → Prop) (τ : ℚ) :
    IsGreatest {t | tauFeasible metric metrics S t} τ ↔
      IsGreatest ((fun v => minPerformance metric metrics v) '' {v | S v}) τ := by
  have hset : {t | tauFeasible metric metrics S t} =
      {t | ∃ v, S v ∧ t ≤ minPerformance metric metrics v} := by
    ext t
    simp only [Set.mem_setOf_eq, tauFeasible]
    constructor
    · rintro ⟨v, hv, h⟩
      exact ⟨v, hv, (le_minPerformance_iff metric metrics v t).mp h⟩
    · rintro ⟨v, hv, h⟩
      exact ⟨v, hv, (le_minPerformance_iff metric metrics v t).mpr h⟩
  rw [hset]
  constructor
  · rintro ⟨⟨v, hv, hle⟩, hub⟩
    have hge : minPerformance metric metrics v ≤ τ :=
      hub ⟨v, hv, le_refl _⟩
    have heq : minPerformance metric metrics v = τ := le_antisymm hge hle
    refine ⟨⟨v, hv, heq⟩, ?_⟩
    rintro y ⟨w, hw, rfl⟩
    exact hub ⟨w, hw, le_refl _⟩
  · rintro ⟨⟨v, hv, heq⟩, hub⟩
    refine ⟨⟨v, hv, le_of_eq heq.symm⟩, ?_⟩
    rintro t ⟨w, hw, hle⟩
    exact le_trans hle (hub ⟨w, hw, rfl⟩)

/-- The names bound as attributes of the `PEPit.primitive_steps` package by
the import statements of its `__init__.py` (lines 1–9): each
`from .module import name` binds the plain function name. -/
def primitiveStepsModuleNames : List String :=
  ["bregman_gradient_step", "bregman_proximal_step", "exact_linesearch_step",
   "fixed_point", "inexact_gradient", "inexact_gradient_step",
   "inexact_proximal_step", "linear_optimization_step", "proximal_step"]

/-- The `__all__` list of `PEPit/primitive_steps/__init__.py`
(lines 12–21), verbatim — five entries carry a spurious `.py` suffix. -/
def primitiveStepsDunderAll : List String :=
  ["bregman_gradient_step", "bregman_proximal_step", "exact_linesearch_step",
   "fixed_point.py", "inexact_gradient.py", "inexact_gradient_step.py",
   "inexact_proximal_step.py", "linear_optimization_step.py", "proximal_step"]

/-- Python semantics of `from package import *` when the package defines
`__all__`: the import succeeds only if every name listed in `__all__` is an
attribute of the module (otherwise it raises AttributeError). -/
def starImportSucceeds : Bool :=
  primitiveStepsDunderAll.all (fun n => primitiveStepsModuleNames.contains n)

/-- C10: the wildcard import of `PEPit.primitive_steps` fails — `__all__`
contains exactly the five `.py`-suffixed names that are not attributes of
the module, while the nine step functions are all importable under their
plain names (each plain name is a module attribute). -/
theorem primitive_steps_star_import_fails :
    starImportSucceeds = false ∧
    primitiveStepsDunderAll.filter
        (fun n => !(primitiveStepsModuleNames.contains n)) =
      ["fixed_point.py", "inexact_gradient.py", "inexact_gradient_step.py",
       "inexact_proximal_step.py", "linear_optimization_step.py"] ∧
    (∀ n ∈ primitiveStepsModuleNames, primitiveStepsModuleNames.contains n) := by
  refine ⟨by decide, by decide, by decide⟩

end PEPit
